import Mathlib

/-!
Verification of the FinBuddy stock-analysis program (`finBuddy.py`).

This file shallowly embeds the program's core logic in Lean:

* the multi-source news aggregation (`StockAnalyzer.get_company_news`,
  together with the per-item validation, case-insensitive deduplication
  and the global five-item cap),
* the timestamp normalisation (`StockAnalyzer._format_timestamp`),
* the report-context assembly (`StockAnalyzer._gather_company_context`),
* the startup configuration loading (`load_stock_data` and the guard at
  the top of `main`).

Python strings are modelled by Lean `String`; `str.strip` and
`str.lower` are modelled on the underlying character list (ASCII
semantics, which covers every literal the program manipulates).
Python `float` values that are only ever rendered into text are carried
as their rendered `String` (or as `ℚ` where arithmetic comparisons
matter, namely the moving averages); fallible external calls are
modelled as `Option`/`Except` inputs, one per `try` block in the source.
-/

/-- The ASCII whitespace characters removed by Python's `str.strip()`:
space, tab, newline, carriage return, vertical tab, form feed. -/
def pyIsWs (c : Char) : Bool :=
  c.toNat == 32 || c.toNat == 9 || c.toNat == 10 ||
  c.toNat == 13 || c.toNat == 11 || c.toNat == 12

/-- Model of Python `str.lower()` (ASCII range, via `Char.toLower`),
applied characterwise to the string's characters. -/
def plower (s : String) : String :=
  ⟨s.data.map Char.toLower⟩

/-- Strip `pyIsWs` characters from the front of a character list. -/
def stripLeft (l : List Char) : List Char :=
  l.dropWhile pyIsWs

/-- Model of Python `str.strip()`: drop ASCII whitespace from both ends. -/
def pstrip (s : String) : String :=
  ⟨(stripLeft (stripLeft s.data).reverse).reverse⟩

/-- A news item as constructed by the program's news sources: a Python
dict with keys `title`, `url`, `source`, `date`, `summary`, all strings
(`date` is the already-formatted timestamp). -/
structure NewsItem where
  title : String
  url : String
  source : String
  date : String
  summary : String
deriving DecidableEq, Repr

/-- One source call in `get_company_news`: the `try` around
`for item in source(symbol)` either yields the source's item list or an
exception (which the loop swallows). -/
abbrev SourceResult := Except String (List NewsItem)

/-- The deduplication key used at `finBuddy.py:241`/`244`:
`item.get('title','').strip().lower()`. -/
def pkey (it : NewsItem) : String :=
  plower (pstrip it.title)

/-- The validation applied at `finBuddy.py:240-242` apart from the seen-set
test: the stripped title is non-empty and differs (case-sensitively) from
the literal placeholder `'No title available'`. -/
def validItem (it : NewsItem) : Prop :=
  pstrip it.title ≠ "" ∧ pstrip it.title ≠ "No title available"

instance (it : NewsItem) : Decidable (validItem it) := by
  unfold validItem; infer_instance

/-- Result of scanning one source's item list: the accumulated output
list, the seen-titles set (as a list), and whether the five-item cap
fired (the `return news_items` at `finBuddy.py:248`). -/
structure ScanState where
  acc : List NewsItem
  seen : List String
  early : Bool
deriving Repr

/-- The inner loop of `get_company_news` (`finBuddy.py:237-248`): walk one
source's items; accept an item when its stripped title is non-empty, its
lowercased stripped title is unseen, and it is not the placeholder;
record the lowercased title, append the (unmodified) item, and return
early once five items are accumulated. -/
def processItems : List NewsItem → List NewsItem → List String → ScanState
  | [], acc, seen => ⟨acc, seen, false⟩
  | item :: rest, acc, seen =>
    let title := pstrip item.title
    if title ≠ "" ∧ plower title ∉ seen ∧ title ≠ "No title available" then
      let acc' := acc ++ [item]
      let seen' := seen ++ [plower title]
      if 5 ≤ acc'.length then ⟨acc', seen', true⟩
      else processItems rest acc' seen'
    else processItems rest acc seen

/-- The outer loop of `get_company_news` (`finBuddy.py:235-252`): iterate
the sources in priority order; a source that raised contributes nothing
(`except: continue`); stop as soon as the inner loop returned early;
after the last source return at most five items (`news_items[:5]`). -/
def processSources : List SourceResult → List NewsItem → List String → List NewsItem
  | [], acc, _ => acc.take 5
  | src :: rest, acc, seen =>
    match src with
    | .error _ => processSources rest acc seen
    | .ok items =>
      let r := processItems items acc seen
      if r.early then r.acc else processSources rest r.acc r.seen

/-- Embedding of `StockAnalyzer.get_company_news` (`finBuddy.py:230-252`), as a function
of the three (or more) source results: aggregation starts from an empty
item list and an empty seen-titles set. -/
def get_company_news (sources : List SourceResult) : List NewsItem :=
  processSources sources [] []

/-- The candidate stream the aggregator walks: the concatenation of the
successful sources' item lists, in source-priority order. -/
def okItems : SourceResult → List NewsItem
  | .ok l => l
  | .error _ => []

/-- Concatenated candidate stream of a source-result list. -/
def stream (sources : List SourceResult) : List NewsItem :=
  (sources.map okItems).flatten

/-- Boolean search predicate: a valid item carrying the same
deduplication key as `w`. -/
def matchKey (w : NewsItem) : NewsItem → Bool :=
  fun y => decide (validItem y ∧ pkey y = pkey w)

/-- A sample item used by concrete witnesses and counterexamples. -/
def sampleItem (t : String) : NewsItem := ⟨t, "u", "s", "", "m"⟩

/-- Six valid, pairwise key-distinct items: one more than the global cap. -/
def sixItems : List NewsItem :=
  [sampleItem "t1", sampleItem "t2", sampleItem "t3",
   sampleItem "t4", sampleItem "t5", sampleItem "t6"]

/-- The `ticker.info` record as used by `_gather_company_context`
(`finBuddy.py:289-309`): each field is `none` when the corresponding key
is absent from the Python dict (`info.get(key, 'N/A')` then yields the
default). Numeric fields that are only ever interpolated into an
f-string are carried as their rendered text; `marketCap` is kept numeric
because it flows through the `:,` thousands-separator format spec. -/
structure CompanyInfo where
  sector : Option String
  industry : Option String
  marketCap : Option Int
  fullTimeEmployees : Option Int
  trailingPE : Option String
  profitMargins : Option String
  revenueGrowth : Option String
  debtToEquity : Option String
deriving Repr

/-- Model of `info.get(key, 'N/A')` for a string-rendered field. -/
def orNA : Option String → String
  | some s => s
  | none => "N/A"

/-- Model of `info.get(key, 'N/A')` for an integer field interpolated plainly. -/
def orNAInt : Option Int → String
  | some n => toString n
  | none => "N/A"

/-- Insert a `','` after every third character of a reversed digit list. -/
def group3 : List Char → List Char
  | [] => []
  | [a] => [a]
  | [a, b] => [a, b]
  | [a, b, c] => [a, b, c]
  | a :: b :: c :: rest => a :: b :: c :: ',' :: group3 rest

/-- Python's `f"{n:,}"` on an integer: decimal digits grouped in threes
by commas, with a leading minus sign for negatives. -/
def commaFmt (n : Int) : String :=
  (if n < 0 then "-" else "") ++
    ⟨(group3 (Nat.toDigits 10 n.natAbs).reverse).reverse⟩

/-- The basic-information block (`finBuddy.py:290-299`). The four lines
are appended one at a time; when `marketCap` is absent, the f-string
`f"...{info.get('marketCap', 'N/A'):,}..."` applies the `','` format
spec to the string `'N/A'`, which raises `ValueError`, so the Market Cap
and Employees lines are cut off (the `except: pass` swallows the error
and the already-appended lines remain). -/
def basicInfoChunks (info : CompanyInfo) : List String :=
  ["## Basic Information\n",
   "- Sector: " ++ orNA info.sector ++ "\n",
   "- Industry: " ++ orNA info.industry ++ "\n"] ++
  (match info.marketCap with
   | none => []
   | some m =>
     ["- Market Cap: $" ++ commaFmt m ++ "\n",
      "- Employees: " ++ orNAInt info.fullTimeEmployees ++ "\n\n"])

/-- The financial-metrics block (`finBuddy.py:301-309`). Its header is
appended first; the four value lines read the `info` variable bound by
the *basic-information* block — when that lookup raised, `info` is
unbound, the first `info.get` raises `NameError`, and only the header
survives (swallowed by `except: pass`). -/
def finChunks (infoRes : Option CompanyInfo) : List String :=
  "## Financial Metrics\n" ::
  (match infoRes with
   | none => []
   | some info =>
     ["- P/E Ratio: " ++ orNA info.trailingPE ++ "\n",
      "- Profit Margin: " ++ orNA info.profitMargins ++ "\n",
      "- Revenue Growth: " ++ orNA info.revenueGrowth ++ "\n",
      "- Debt/Equity: " ++ orNA info.debtToEquity ++ "\n\n"])

/-- The news-highlights block (`finBuddy.py:312-317`): nothing when no
news, otherwise a header plus up to three title/source lines. -/
def newsChunks (news : List NewsItem) : List String :=
  if news.isEmpty then []
  else
    "## Recent News Highlights\n" ::
    ((news.take 3).map (fun it => "- " ++ it.title ++ " (" ++ it.source ++ ")\n")
      ++ ["\n"])

/-- Two-digit zero-padded decimal. -/
def pad2 (n : Nat) : String :=
  if n < 10 then "0" ++ toString n else toString n

/-- Four-digit zero-padded decimal (for years). -/
def pad4 (n : Nat) : String :=
  if n < 10 then "000" ++ toString n
  else if n < 100 then "00" ++ toString n
  else if n < 1000 then "0" ++ toString n
  else toString n

/-- Model of `hist['Close'].rolling(n).mean().iloc[-1]`: the mean of the last `n`
closes when at least `n` closes exist, and NaN (`none`) otherwise.
Prices are carried as `ℚ`, standing in for the floating-point values. -/
def sma (n : ℕ) (closes : List ℚ) : Option ℚ :=
  if n ≤ closes.length then some ((closes.reverse.take n).sum / n) else none

/-- Round a rational to the nearest integer: `⌊q + 1/2⌋` computed on the
numerator and denominator. -/
def ratRound (q : ℚ) : Int := Int.fdiv (2 * q.num + q.den) (2 * q.den)

/-- Python's `f"{x:.2f}"` for the model's rationals: two decimal places,
rounding to nearest. -/
def fmt2 (q : ℚ) : String :=
  let n : Int := ratRound (100 * q)
  (if n < 0 then "-" else "") ++
    toString (n.natAbs / 100) ++ "." ++ pad2 (n.natAbs % 100)

/-- A moving average as rendered by `f"{sma:.2f}"`: NaN prints `nan`. -/
def maStr : Option ℚ → String
  | some q => fmt2 q
  | none => "nan"

/-- The expression `'Bullish' if sma50 > sma200 else 'Bearish'` (`finBuddy.py:329`):
any comparison with NaN is false, so an undefined average yields
`Bearish`. -/
def trendWord (closes : List ℚ) : String :=
  match sma 50 closes, sma 200 closes with
  | some a, some b => if b < a then "Bullish" else "Bearish"
  | _, _ => "Bearish"

/-- The technical-indicators block (`finBuddy.py:320-331`): nothing when
the history lookup raised or the frame is empty; otherwise the four
indicator lines. -/
def techChunks (histRes : Option (List ℚ)) : List String :=
  match histRes with
  | none => []
  | some closes =>
    if closes.isEmpty then []
    else
      ["## Technical Indicators\n",
       "- Current Price: $" ++ fmt2 (closes.getLast?.getD 0) ++ "\n",
       "- 50-day MA: $" ++ maStr (sma 50 closes) ++ "\n",
       "- 200-day MA: $" ++ maStr (sma 200 closes) ++ "\n",
       "- Trend: " ++ trendWord closes ++ "\n\n"]

/-- Embedding of `StockAnalyzer._gather_company_context` (`finBuddy.py:285-333`) as
the ordered list of strings appended to `context`, one element per
`context +=` that executes. Inputs model the fallible externals: the
`ticker.info` lookup of the basic-info block (`none` = raised), the news
source results, and the separate history lookup of the technicals block
(`none` = raised or no data). -/
def gatherChunks (symbol name : String) (infoRes : Option CompanyInfo)
    (sources : List SourceResult) (histRes : Option (List ℚ)) : List String :=
  ("Company: " ++ name ++ " (" ++ symbol ++ ")\n\n") ::
    ((match infoRes with
      | none => []
      | some info => basicInfoChunks info)
     ++ finChunks infoRes
     ++ newsChunks (get_company_news sources)
     ++ techChunks histRes)

/-- Concatenation of the appended chunks. -/
def strConcat (l : List String) : String := l.foldr (· ++ ·) ""

/-- The string `_gather_company_context` returns. -/
def gather_company_context (symbol name : String) (infoRes : Option CompanyInfo)
    (sources : List SourceResult) (histRes : Option (List ℚ)) : String :=
  strConcat (gatherChunks symbol name infoRes sources histRes)

/-- An `info` record whose `marketCap` key is absent; every other field
present.  Concrete failing input for the Market-Cap formatting bug. -/
def infoNoCap : CompanyInfo :=
  { sector := some "Technology", industry := some "Consumer Electronics",
    marketCap := none, fullTimeEmployees := some 150000,
    trailingPE := some "30.5", profitMargins := some "0.25",
    revenueGrowth := some "0.08", debtToEquity := some "170.0" }

/-- An `info` record with only `marketCap` present. -/
def infoOnlyCap : CompanyInfo :=
  { sector := none, industry := none, marketCap := some 2000000000,
    fullTimeEmployees := none, trailingPE := none, profitMargins := none,
    revenueGrowth := none, debtToEquity := none }

/-- A Python value reaching `_format_timestamp`: `None`, a number
(modelled as an integer epoch-second count), or a string. -/
inductive TSVal where
  | noneV
  | num (n : Int)
  | str (s : String)

/-- Python truthiness of a timestamp value: `None`, numeric `0` and the
empty string are all falsy, so `if not timestamp` treats them alike. -/
def tsFalsy : TSVal → Bool
  | .noneV => true
  | .num n => n == 0
  | .str s => s == ""

/-- Smallest epoch second `datetime` can represent (0001-01-01 00:00:00). -/
def tsMin : Int := -62135596800

/-- Largest epoch second `datetime` can represent (9999-12-31 23:59:59). -/
def tsMax : Int := 253402300799

/-- Civil date from a day count relative to 1970-01-01 (proleptic
Gregorian calendar, Hinnant's algorithm), valid for the whole
`datetime` range: returns (year, month, day). -/
def civilFromDays (z : Int) : Nat × Nat × Nat :=
  let zn := (z + 719468).toNat
  let era := zn / 146097
  let doe := zn % 146097
  let yoe := (doe - doe / 1460 + doe / 36524 - doe / 146096) / 365
  let y := yoe + era * 400
  let doy := doe - (365 * yoe + yoe / 4 - yoe / 100)
  let mp := (5 * doy + 2) / 153
  let d := doy - (153 * mp + 2) / 5 + 1
  let m := if mp < 10 then mp + 3 else mp - 9
  (if m ≤ 2 then y + 1 else y, m, d)

/-- Model of `datetime.fromtimestamp(t).strftime('%Y-%m-%d %H:%M')` (UTC), with
`none` for epoch seconds outside the representable `datetime` range
(where `fromtimestamp` raises and the `except` yields `''`). -/
def epochFmt (t : Int) : Option String :=
  if tsMin ≤ t ∧ t ≤ tsMax then
    let secs := (Int.emod t 86400).toNat
    let ymd := civilFromDays (Int.ediv t 86400)
    some (pad4 ymd.1 ++ "-" ++ pad2 ymd.2.1 ++ "-" ++ pad2 ymd.2.2 ++ " " ++
      pad2 (secs / 3600) ++ ":" ++ pad2 (secs % 3600 / 60))
  else none

/-- Embedding of `StockAnalyzer._format_timestamp` (`finBuddy.py:219-228`): falsy
values (including numeric `0`) yield `''`; numbers are rendered through
`fromtimestamp`/`strftime` with any failure yielding `''`; everything
else is passed through `str`, leaving strings unmodified. -/
def format_timestamp (t : TSVal) : String :=
  if tsFalsy t then ""
  else
    match t with
    | .noneV => ""
    | .num n =>
      match epochFmt n with
      | some s => s
      | none => ""
    | .str s => s

/-- The sector → (company → ticker) table of `us_stocks.json`, as an
association list. -/
abbrev StockData := List (String × List (String × String))

/-- The three relevant outcomes of `open('us_stocks.json')` +
`json.load`: file missing, malformed JSON, or parsed data. -/
inductive ReadResult where
  | missing
  | malformed
  | ok (d : StockData)

/-- Embedding of `load_stock_data` (`finBuddy.py:377-390`): returns the parsed data,
or `None` after reporting the matching `st.error` message. The second
component collects the error messages shown to the user. -/
def load_stock_data : ReadResult → Option StockData × List String
  | .missing => (none, ["Error: us_stocks.json file not found"])
  | .malformed => (none, ["Error: Invalid JSON format in us_stocks.json"])
  | .ok d => (some d, [])

/-- The startup guard of `main` (`finBuddy.py:402-405`): when the loaded
data is falsy (`None` or empty), report the failure and return before
any sector selection; otherwise proceed to the sidebar. The boolean says
whether sector selection is reached. -/
def mainStartup (r : ReadResult) : Bool × List String :=
  let res := load_stock_data r
  match res.1 with
  | none =>
    (false, res.2 ++ ["Failed to load stock data. Please check us_stocks.json file."])
  | some d =>
    if d.isEmpty then
      (false, res.2 ++ ["Failed to load stock data. Please check us_stocks.json file."])
    else (true, res.2)

theorem stream_cons_ok (items : List NewsItem) (rest : List SourceResult) :
    stream (.ok items :: rest) = items ++ stream rest := rfl

theorem stream_cons_error (e : String) (rest : List SourceResult) :
    stream (.error e :: rest) = stream rest := rfl

theorem processItems_cons (item : NewsItem) (rest acc : List NewsItem)
    (seen : List String) :
    processItems (item :: rest) acc seen =
      if pstrip item.title ≠ "" ∧ pkey item ∉ seen ∧
          pstrip item.title ≠ "No title available" then
        (if 5 ≤ (acc ++ [item]).length then
          ⟨acc ++ [item], seen ++ [pkey item], true⟩
         else processItems rest (acc ++ [item]) (seen ++ [pkey item]))
      else processItems rest acc seen := rfl

/-- Master invariant of the inner loop: scanning one source's items from
state `(acc, seen)` with `seen` the keys of `acc` and fewer than five
items accumulated appends a block `d` of accepted items such that: the
seen set stays the key image of the output; the early flag fires exactly
when five items exist; `d` is a subsequence of the scanned items; every
accepted item is valid, previously unseen, pairwise key-distinct, and is
the first valid occurrence of its key among the scanned items; and when
the loop runs to completion, no valid unseen-keyed item remains
undiscovered in the scanned list. -/
theorem processItems_spec (items : List NewsItem) :
    ∀ (acc : List NewsItem) (seen : List String),
      seen = acc.map pkey → acc.length ≤ 4 →
      ∃ d, (processItems items acc seen).acc = acc ++ d ∧
        (processItems items acc seen).seen = (acc ++ d).map pkey ∧
        ((processItems items acc seen).early = true → (acc ++ d).length = 5) ∧
        ((processItems items acc seen).early = false → (acc ++ d).length ≤ 4) ∧
        d.Sublist items ∧
        (∀ x ∈ d, validItem x ∧ pkey x ∉ seen) ∧
        d.Pairwise (fun a b => pkey a ≠ pkey b) ∧
        (∀ x ∈ d, items.find? (matchKey x) = some x) ∧
        ((processItems items acc seen).early = false →
          ∀ w, validItem w → pkey w ∉ (acc ++ d).map pkey →
            items.find? (matchKey w) = none) := by
  induction items with
  | nil =>
    intro acc seen hseen hlen
    refine ⟨[], by simp [processItems], ?_, ?_, ?_, ?_, ?_, ?_, ?_, ?_⟩
    · simpa [processItems] using hseen
    · intro h; simp [processItems] at h
    · intro _; simpa using hlen
    · exact List.nil_sublist _
    · intro x hx; simp at hx
    · simp
    · intro x hx; simp at hx
    · intro _ w _ _; rfl
  | cons item rest ih =>
    intro acc seen hseen hlen
    by_cases hc : pstrip item.title ≠ "" ∧ pkey item ∉ seen ∧
        pstrip item.title ≠ "No title available"
    · by_cases h5 : 5 ≤ (acc ++ [item]).length
      · -- the item is accepted and fills the fifth slot: early return
        have heq : processItems (item :: rest) acc seen =
            ⟨acc ++ [item], seen ++ [pkey item], true⟩ := by
          rw [processItems_cons, if_pos hc, if_pos h5]
        refine ⟨[item], by rw [heq], ?_, ?_, ?_, ?_, ?_, ?_, ?_, ?_⟩
        · rw [heq]; simp [hseen, pkey]
        · intro _; simp at h5 hlen ⊢; omega
        · intro h; rw [heq] at h; simp at h
        · exact (List.nil_sublist rest).cons₂ item
        · intro x hx
          have hx' : x = item := by simpa using hx
          subst hx'
          exact ⟨⟨hc.1, hc.2.2⟩, hc.2.1⟩
        · simp
        · intro x hx
          have hx' : x = item := by simpa using hx
          subst hx'
          refine List.find?_cons_of_pos _ ?_
          simp [matchKey, validItem]
          exact ⟨hc.1, hc.2.2⟩
        · intro h; rw [heq] at h; simp at h
      · -- the item is accepted and scanning continues
        have heq : processItems (item :: rest) acc seen =
            processItems rest (acc ++ [item]) (seen ++ [pkey item]) := by
          rw [processItems_cons, if_pos hc, if_neg h5]
        have hseen' : seen ++ [pkey item] = (acc ++ [item]).map pkey := by
          simp [hseen]
        have hlen' : (acc ++ [item]).length ≤ 4 := by
          simp at h5 ⊢; omega
        obtain ⟨d', h1, h2, h3, h4, hsub, hval, hpw, hfind, hnone⟩ :=
          ih (acc ++ [item]) (seen ++ [pkey item]) hseen' hlen'
        have hrw : (acc ++ [item]) ++ d' = acc ++ item :: d' := by
          simp
        refine ⟨item :: d', ?_, ?_, ?_, ?_, ?_, ?_, ?_, ?_, ?_⟩
        · rw [heq, h1, hrw]
        · rw [heq, h2, hrw]
        · rw [heq]; intro h; rw [← hrw]; exact h3 h
        · rw [heq]; intro h; rw [← hrw]; exact h4 h
        · exact hsub.cons₂ item
        · intro x hx
          rcases List.mem_cons.1 hx with hx' | hx'
          · subst hx'; exact ⟨⟨hc.1, hc.2.2⟩, hc.2.1⟩
          · obtain ⟨hv, hns⟩ := hval x hx'
            exact ⟨hv, fun hmem => hns (by simp [hmem])⟩
        · refine List.Pairwise.cons ?_ hpw
          intro x hx
          have := (hval x hx).2
          intro hkeq
          exact this (by simp [hkeq])
        · intro x hx
          rcases List.mem_cons.1 hx with hx' | hx'
          · subst hx'
            refine List.find?_cons_of_pos _ ?_
            simp [matchKey, validItem]
            exact ⟨hc.1, hc.2.2⟩
          · have hne : pkey item ≠ pkey x := by
              intro hkeq
              exact (hval x hx').2 (by simp [hkeq])
            rw [List.find?_cons_of_neg _ (by simp [matchKey, hne])]
            exact hfind x hx'
        · rw [heq]; intro h w hw hnk
          have hitem : pkey item ∈ (acc ++ item :: d').map pkey := by
            simp
          have hne : pkey w ≠ pkey item := fun hkeq => hnk (hkeq ▸ hitem)
          rw [List.find?_cons_of_neg _ (by simp [matchKey]; intro _; exact fun h' => hne h'.symm)]
          exact hnone h w hw (by rw [hrw]; exact hnk)
    · -- the item is rejected: empty, duplicate, or the exact placeholder
      have heq : processItems (item :: rest) acc seen =
          processItems rest acc seen := by
        rw [processItems_cons, if_neg hc]
      obtain ⟨d', h1, h2, h3, h4, hsub, hval, hpw, hfind, hnone⟩ :=
        ih acc seen hseen hlen
      have hskip : ∀ w : NewsItem, pkey w ∉ seen → matchKey w item = false := by
        intro w hwns
        by_cases hv : validItem item
        · have hB : pkey item ∈ seen := by
            by_contra hB
            exact hc ⟨hv.1, hB, hv.2⟩
          have hne : pkey item ≠ pkey w := fun hkeq => hwns (hkeq ▸ hB)
          simp [matchKey]
          intro _; exact fun h' => hne h'
        · simp [matchKey]
          intro h'; exact absurd h' hv
      refine ⟨d', by rw [heq, h1], by rw [heq, h2], ?_, ?_,
        hsub.cons item, hval, hpw, ?_, ?_⟩
      · rw [heq]; exact h3
      · rw [heq]; exact h4
      · intro x hx
        rw [List.find?_cons_of_neg _ (by
          have := hskip x (hval x hx).2
          simp [this])]
        exact hfind x hx
      · rw [heq]; intro h w hw hnk
        have hwns : pkey w ∉ seen := by
          rw [hseen]
          intro hmem
          apply hnk
          rw [List.map_append]
          exact List.mem_append_left _ hmem
        rw [List.find?_cons_of_neg _ (by simp [hskip w hwns])]
        exact hnone h w hw hnk

theorem processSources_cons_error (e : String) (rest : List SourceResult)
    (acc : List NewsItem) (seen : List String) :
    processSources (.error e :: rest) acc seen = processSources rest acc seen := rfl

theorem processSources_cons_ok (items : List NewsItem) (rest : List SourceResult)
    (acc : List NewsItem) (seen : List String) :
    processSources (.ok items :: rest) acc seen =
      if (processItems items acc seen).early then (processItems items acc seen).acc
      else processSources rest (processItems items acc seen).acc
        (processItems items acc seen).seen := rfl

/-- Master invariant of the aggregation loop over the sources: from a
state with fewer than five accepted items whose keys are exactly `seen`,
the loop appends a block `d` of items such that the result holds at most
five items; `d` is a subsequence of the concatenated candidate stream;
every appended item is valid, its key was unseen, keys are pairwise
distinct, and each appended item is the first valid occurrence of its
key in the candidate stream. -/
theorem processSources_spec (sources : List SourceResult) :
    ∀ (acc : List NewsItem) (seen : List String),
      seen = acc.map pkey → acc.length ≤ 4 →
      ∃ d, processSources sources acc seen = acc ++ d ∧
        (acc ++ d).length ≤ 5 ∧
        d.Sublist (stream sources) ∧
        (∀ x ∈ d, validItem x ∧ pkey x ∉ seen) ∧
        d.Pairwise (fun a b => pkey a ≠ pkey b) ∧
        (∀ x ∈ d, (stream sources).find? (matchKey x) = some x) := by
  induction sources with
  | nil =>
    intro acc seen hseen hlen
    refine ⟨[], ?_, by simpa using (by omega : acc.length ≤ 5),
      List.nil_sublist _, ?_, by simp, ?_⟩
    · show acc.take 5 = acc ++ []
      rw [List.take_of_length_le (by omega), List.append_nil]
    · intro x hx; simp at hx
    · intro x hx; simp at hx
  | cons src rest ih =>
    intro acc seen hseen hlen
    match src with
    | .error e =>
      obtain ⟨d, h1, h2, h3, h4, h5, h6⟩ := ih acc seen hseen hlen
      exact ⟨d, by rw [processSources_cons_error, h1], h2,
        by rw [stream_cons_error]; exact h3, h4, h5,
        by rw [stream_cons_error]; exact h6⟩
    | .ok items =>
      obtain ⟨d₁, p1, p2, p3, p4, psub, pval, ppw, pfind, pnone⟩ :=
        processItems_spec items acc seen hseen hlen
      by_cases he : (processItems items acc seen).early
      · -- five items reached inside this source: immediate return
        have heq : processSources (.ok items :: rest) acc seen =
            acc ++ d₁ := by
          rw [processSources_cons_ok, if_pos he, p1]
        refine ⟨d₁, heq, le_of_eq (p3 he), ?_, pval, ppw, ?_⟩
        · rw [stream_cons_ok]
          exact psub.trans (List.sublist_append_left items _)
        · intro x hx
          rw [stream_cons_ok, List.find?_append, pfind x hx]
          rfl
      · -- this source exhausted without reaching five: continue
        have he' : (processItems items acc seen).early = false := by
          simpa using he
        have heq : processSources (.ok items :: rest) acc seen =
            processSources rest (acc ++ d₁) ((acc ++ d₁).map pkey) := by
          rw [processSources_cons_ok, if_neg he, p1, p2]
        obtain ⟨d₂, g1, g2, g3, g4, g5, g6⟩ :=
          ih (acc ++ d₁) ((acc ++ d₁).map pkey) rfl (p4 he')
        have hassoc : (acc ++ d₁) ++ d₂ = acc ++ (d₁ ++ d₂) := by
          rw [List.append_assoc]
        refine ⟨d₁ ++ d₂, by rw [heq, g1, hassoc], by rw [← hassoc]; exact g2,
          ?_, ?_, ?_, ?_⟩
        · rw [stream_cons_ok]
          exact psub.append g3
        · intro x hx
          rcases List.mem_append.1 hx with hx' | hx'
          · exact pval x hx'
          · obtain ⟨hv, hns⟩ := g4 x hx'
            refine ⟨hv, fun hmem => hns ?_⟩
            rw [List.map_append]
            exact List.mem_append_left _ (by rw [hseen] at hmem; exact hmem)
        · rw [List.pairwise_append]
          refine ⟨ppw, g5, ?_⟩
          intro x hx y hy
          have := (g4 y hy).2
          intro hkeq
          apply this
          rw [List.map_append]
          refine List.mem_append_right _ ?_
          exact hkeq ▸ List.mem_map_of_mem pkey hx
        · intro x hx
          rcases List.mem_append.1 hx with hx' | hx'
          · rw [stream_cons_ok, List.find?_append, pfind x hx']
            rfl
          · have hnone' : items.find? (matchKey x) = none := by
              refine pnone he' x (g4 x hx').1 ?_
              exact (g4 x hx').2
            rw [stream_cons_ok, List.find?_append, hnone', Option.none_or]
            exact g6 x hx'

/-- Once the inner loop returns early (five items reached), items that a
source would deliver after that point cannot change its result. -/
theorem processItems_early_append (items : List NewsItem) :
    ∀ (acc : List NewsItem) (seen : List String) (more : List NewsItem),
      (processItems items acc seen).early = true →
      processItems (items ++ more) acc seen = processItems items acc seen := by
  induction items with
  | nil =>
    intro acc seen more h
    simp [processItems] at h
  | cons item rest ih =>
    intro acc seen more h
    rw [List.cons_append]
    by_cases hc : pstrip item.title ≠ "" ∧ pkey item ∉ seen ∧
        pstrip item.title ≠ "No title available"
    · by_cases h5 : 5 ≤ (acc ++ [item]).length
      · rw [processItems_cons, if_pos hc, if_pos h5,
          processItems_cons, if_pos hc, if_pos h5]
      · rw [processItems_cons, if_pos hc, if_neg h5] at h ⊢
        rw [processItems_cons, if_pos hc, if_neg h5]
        exact ih _ _ more h
    · rw [processItems_cons, if_neg hc] at h ⊢
      rw [processItems_cons, if_neg hc]
      exact ih _ _ more h

/-- Once five items have been accumulated, appending further sources to
the source list cannot change the aggregation result. -/
theorem processSources_early_stable (sources : List SourceResult) :
    ∀ (acc : List NewsItem) (seen : List String),
      seen = acc.map pkey → acc.length ≤ 4 →
      5 ≤ (processSources sources acc seen).length →
      ∀ extra, processSources (sources ++ extra) acc seen =
        processSources sources acc seen := by
  induction sources with
  | nil =>
    intro acc seen _ hlen hfive extra
    exfalso
    have : (processSources [] acc seen).length ≤ 4 := by
      show (acc.take 5).length ≤ 4
      rw [List.length_take]
      omega
    omega
  | cons src rest ih =>
    intro acc seen hseen hlen hfive extra
    match src with
    | .error e =>
      rw [List.cons_append, processSources_cons_error, processSources_cons_error]
      rw [processSources_cons_error] at hfive
      exact ih acc seen hseen hlen hfive extra
    | .ok items =>
      by_cases he : (processItems items acc seen).early
      · rw [List.cons_append, processSources_cons_ok, if_pos he,
          processSources_cons_ok, if_pos he]
      · obtain ⟨d₁, p1, p2, _, p4, _, _, _, _, _⟩ :=
          processItems_spec items acc seen hseen hlen
        have he' : (processItems items acc seen).early = false := by
          simpa using he
        rw [List.cons_append, processSources_cons_ok, if_neg he,
          processSources_cons_ok, if_neg he]
        rw [processSources_cons_ok, if_neg he] at hfive
        refine ih _ _ ?_ ?_ hfive extra
        · rw [p1, p2]
        · rw [p1]; exact p4 he'

/-- Once five items have been accumulated inside one source, the rest of
that source's items and all later sources cannot change the result. -/
theorem processSources_mid (pre : List SourceResult) :
    ∀ (items more : List NewsItem) (post : List SourceResult)
      (acc : List NewsItem) (seen : List String),
      seen = acc.map pkey → acc.length ≤ 4 →
      5 ≤ (processSources (pre ++ [.ok items]) acc seen).length →
      processSources (pre ++ .ok (items ++ more) :: post) acc seen =
        processSources (pre ++ [.ok items]) acc seen := by
  induction pre with
  | nil =>
    intro items more post acc seen hseen hlen hfive
    show processSources (.ok (items ++ more) :: post) acc seen =
      processSources [.ok items] acc seen
    replace hfive : 5 ≤ (processSources [.ok items] acc seen).length := hfive
    by_cases he : (processItems items acc seen).early
    · rw [processSources_cons_ok, processSources_cons_ok,
        processItems_early_append items acc seen more he, if_pos he, if_pos he]
    · exfalso
      obtain ⟨d₁, p1, p2, _, p4, _, _, _, _, _⟩ :=
        processItems_spec items acc seen hseen hlen
      have he' : (processItems items acc seen).early = false := by
        simpa using he
      rw [processSources_cons_ok, if_neg he] at hfive
      have : (processSources [] (processItems items acc seen).acc
          (processItems items acc seen).seen).length ≤ 4 := by
        show ((processItems items acc seen).acc.take 5).length ≤ 4
        rw [List.length_take, p1]
        have := p4 he'
        omega
      omega
  | cons src pre' ih =>
    intro items more post acc seen hseen hlen hfive
    match src with
    | .error e =>
      rw [List.cons_append, List.cons_append, processSources_cons_error,
        processSources_cons_error]
      rw [List.cons_append, processSources_cons_error] at hfive
      exact ih items more post acc seen hseen hlen hfive
    | .ok its =>
      by_cases he : (processItems its acc seen).early
      · rw [List.cons_append, List.cons_append, processSources_cons_ok,
          if_pos he, processSources_cons_ok, if_pos he]
      · obtain ⟨d₁, p1, p2, _, p4, _, _, _, _, _⟩ :=
          processItems_spec its acc seen hseen hlen
        have he' : (processItems its acc seen).early = false := by
          simpa using he
        rw [List.cons_append, List.cons_append, processSources_cons_ok,
          if_neg he, processSources_cons_ok, if_neg he]
        rw [List.cons_append, processSources_cons_ok, if_neg he] at hfive
        refine ih items more post _ _ ?_ ?_ hfive
        · rw [p1, p2]
        · rw [p1]; exact p4 he'

theorem toLower_eq (c : Char) :
    Char.toLower c =
      if c.toNat ≥ 65 ∧ c.toNat ≤ 90 then Char.ofNat (c.toNat + 32) else c := rfl

theorem toNat_ofNat_of_valid {n : Nat} (h : Nat.isValidChar n) :
    (Char.ofNat n).toNat = n := by
  rw [Char.ofNat, dif_pos h]
  rfl

/-- ASCII lowercasing maps whitespace to whitespace and non-whitespace to
non-whitespace. -/
theorem pyIsWs_toLower (c : Char) : pyIsWs (Char.toLower c) = pyIsWs c := by
  rw [toLower_eq]
  by_cases h : c.toNat ≥ 65 ∧ c.toNat ≤ 90
  · rw [if_pos h]
    have hval : Nat.isValidChar (c.toNat + 32) := Or.inl (by omega)
    have htn := toNat_ofNat_of_valid hval
    have hl : pyIsWs (Char.ofNat (c.toNat + 32)) = false := by
      simp only [pyIsWs, htn, Bool.or_eq_false_iff, beq_eq_false_iff_ne]
      omega
    have hr : pyIsWs c = false := by
      simp only [pyIsWs, Bool.or_eq_false_iff, beq_eq_false_iff_ne]
      omega
    rw [hl, hr]
  · rw [if_neg h]

theorem dropWhile_map_toLower (l : List Char) :
    (l.map Char.toLower).dropWhile pyIsWs =
      (l.dropWhile pyIsWs).map Char.toLower := by
  induction l with
  | nil => rfl
  | cons c l ih =>
    rw [List.map_cons, List.dropWhile_cons, List.dropWhile_cons, pyIsWs_toLower]
    by_cases h : pyIsWs c
    · rw [if_pos h, if_pos h, ih]
    · rw [if_neg h, if_neg h, List.map_cons]

/-- Python's `.strip()` and `.lower()` commute: lowering does not create
or destroy whitespace at the ends. -/
theorem pstrip_plower (s : String) : pstrip (plower s) = plower (pstrip s) := by
  cases s with
  | mk l =>
    show (⟨(stripLeft (stripLeft (l.map Char.toLower)).reverse).reverse⟩ : String) =
      ⟨((stripLeft (stripLeft l).reverse).reverse).map Char.toLower⟩
    unfold stripLeft
    rw [dropWhile_map_toLower, ← List.map_reverse, dropWhile_map_toLower,
      ← List.map_reverse]

/-- Titles equal after case-folding have equal deduplication keys. -/
theorem pkey_eq_of_plower_eq {a b : NewsItem}
    (h : plower a.title = plower b.title) : pkey a = pkey b := by
  unfold pkey
  rw [← pstrip_plower, ← pstrip_plower, h]

/-- C1: for every combination of source results, `get_company_news`
returns at most 5 items, each of whose title is non-empty and not the
placeholder `"No title available"`; and once five accepted items exist
the function returns immediately — neither the remaining items of the
current source nor any later source can alter the result. -/
theorem C1_news_cap_and_valid_titles :
    (∀ sources : List SourceResult,
      (get_company_news sources).length ≤ 5 ∧
      (∀ it ∈ get_company_news sources,
        it.title ≠ "" ∧ it.title ≠ "No title available") ∧
      ((get_company_news sources).length = 5 →
        ∀ extra, get_company_news (sources ++ extra) =
          get_company_news sources)) ∧
    (∀ (pre : List SourceResult) (items more : List NewsItem)
        (post : List SourceResult),
      (get_company_news (pre ++ [.ok items])).length = 5 →
      get_company_news (pre ++ .ok (items ++ more) :: post) =
        get_company_news (pre ++ [.ok items])) := by
  constructor
  · intro sources
    obtain ⟨d, h1, h2, _, h4, _, _⟩ :=
      processSources_spec sources [] [] rfl (by simp)
    have hout : get_company_news sources = d := by simpa using h1
    refine ⟨?_, ?_, ?_⟩
    · rw [hout]; simpa using h2
    · intro it hit
      rw [hout] at hit
      obtain ⟨⟨hne, hnp⟩, _⟩ := h4 it hit
      constructor
      · intro h'; exact hne (by rw [h']; decide)
      · intro h'; exact hnp (by rw [h']; decide)
    · intro h5len extra
      exact processSources_early_stable sources [] [] rfl (by simp)
        (le_of_eq h5len.symm) extra
  · intro pre items more post h5len
    exact processSources_mid pre items more post [] [] rfl (by simp)
      (le_of_eq h5len.symm)

/-- Witness for C1 at a concrete input: a single source delivering six
valid items yields exactly five; a late error source and extra items
after the fifth leave the result unchanged. -/
theorem C1_witness :
    (get_company_news [.ok sixItems]).length ≤ 5 ∧
    (sampleItem "t1").title ≠ "" ∧
    get_company_news ([.ok sixItems] ++ [.error "late"]) =
      get_company_news [.ok sixItems] ∧
    get_company_news [.ok (sixItems ++ [sampleItem "t7"])] =
      get_company_news [.ok sixItems] :=
  ⟨(C1_news_cap_and_valid_titles.1 [.ok sixItems]).1,
   ((C1_news_cap_and_valid_titles.1 [.ok sixItems]).2.1
     (sampleItem "t1") (by decide)).1,
   (C1_news_cap_and_valid_titles.1 [.ok sixItems]).2.2 (by decide) [.error "late"],
   C1_news_cap_and_valid_titles.2 [] sixItems [sampleItem "t7"] [] (by decide)⟩

/-- C2 (amended): no two output items have titles equal after
case-folding (equivalently, equal stripped-lowercased dedup keys); the
output is a subsequence of the concatenation of the successful sources'
item lists (source-priority order, then each source's own ordering); and
every output item is the *first valid occurrence* of its key in that
concatenated stream — so whenever the output contains an item with a
given case-insensitive title, it is the earliest source's valid item,
with that source's url, source and summary fields. -/
theorem C2_news_dedup_first_wins :
    ∀ sources : List SourceResult,
      (get_company_news sources).Pairwise
        (fun a b => plower a.title ≠ plower b.title) ∧
      (get_company_news sources).Pairwise (fun a b => pkey a ≠ pkey b) ∧
      (get_company_news sources).Sublist (stream sources) ∧
      (∀ x ∈ get_company_news sources,
        (stream sources).find? (matchKey x) = some x) := by
  intro sources
  obtain ⟨d, h1, _, h3, _, h5, h6⟩ :=
    processSources_spec sources [] [] rfl (by simp)
  have hout : get_company_news sources = d := by simpa using h1
  refine ⟨?_, ?_, ?_, ?_⟩
  · rw [hout]
    exact h5.imp (fun hne heq => hne (pkey_eq_of_plower_eq heq))
  · rw [hout]; exact h5
  · rw [hout]; exact h3
  · intro x hx
    rw [hout] at hx
    exact h6 x hx

/-- Witness for C2 at a concrete input: with a duplicate-titled item in a
later source, the first source's item is the one found. -/
theorem C2_witness :
    (get_company_news
        [.ok [sampleItem "Alpha"], .error "down",
         .ok [sampleItem "alpha", sampleItem "Beta"]]).Pairwise
      (fun a b => plower a.title ≠ plower b.title) ∧
    (stream [.ok [sampleItem "Alpha"], .error "down",
        .ok [sampleItem "alpha", sampleItem "Beta"]]).find?
      (matchKey (sampleItem "Alpha")) = some (sampleItem "Alpha") :=
  ⟨(C2_news_dedup_first_wins _).1,
   (C2_news_dedup_first_wins
     [.ok [sampleItem "Alpha"], .error "down",
      .ok [sampleItem "alpha", sampleItem "Beta"]]).2.2.2
     (sampleItem "Alpha") (by decide)⟩

/-- Counterexample to C2 as stated: source 1 and source 2 both produce
an item titled (case-insensitively) "shared scoop", yet the output —
already filled by source 1's first five items — contains neither, so in
particular it does not contain the earlier source's item. -/
theorem C2_counterexample :
    pkey (sampleItem "Shared scoop") =
      pkey (⟨"shared SCOOP", "urlB", "srcB", "", "sumB"⟩ : NewsItem) ∧
    get_company_news
        [.ok (sixItems.take 5 ++ [sampleItem "Shared scoop"]),
         .ok [⟨"shared SCOOP", "urlB", "srcB", "", "sumB"⟩]] =
      sixItems.take 5 ∧
    sampleItem "Shared scoop" ∉
      get_company_news
        [.ok (sixItems.take 5 ++ [sampleItem "Shared scoop"]),
         .ok [⟨"shared SCOOP", "urlB", "srcB", "", "sumB"⟩]] := by
  decide

/-- C3: a source that raises contributes zero items and aggregation
proceeds with the subsequent sources — deleting an erroring source from
the source list does not change the result at all. (`get_company_news`
itself is a total function in this model: it never raises.) -/
theorem C3_error_source_skipped :
    ∀ (pre : List SourceResult) (e : String) (post : List SourceResult),
      get_company_news (pre ++ .error e :: post) =
        get_company_news (pre ++ post) := by
  have key : ∀ (pre : List SourceResult) (e : String) (post : List SourceResult)
      (acc : List NewsItem) (seen : List String),
      processSources (pre ++ .error e :: post) acc seen =
        processSources (pre ++ post) acc seen := by
    intro pre
    induction pre with
    | nil => intro e post acc seen; rfl
    | cons src pre' ih =>
      intro e post acc seen
      match src with
      | .error e' =>
        rw [List.cons_append, List.cons_append, processSources_cons_error,
          processSources_cons_error]
        exact ih e post acc seen
      | .ok items =>
        rw [List.cons_append, List.cons_append, processSources_cons_ok,
          processSources_cons_ok, ih e post]
  intro pre e post
  exact key pre e post [] []

/-- C10: the placeholder rejection is case-sensitive — an item whose
title matches `"No title available"` only up to letter case passes
validation and appears in the output. -/
theorem C10_placeholder_case_sensitive :
    plower (sampleItem "no title available").title =
      plower (sampleItem "No title available").title ∧
    get_company_news [.ok [sampleItem "No title available",
        sampleItem "no title available"]] =
      [sampleItem "no title available"] := by
  decide

/-- C4 (amended): the assembler is total (never raises) and always
starts with the company header; a failing sub-step cuts that section off
from the point of failure — text appended before the failure, such as
the bare `## Financial Metrics` header after a failed info lookup,
remains — and assembly continues with the remaining sections; a failed
history lookup omits the technicals exactly as an empty history does. -/
theorem C4_gather_partial_sections :
    (∀ (symbol name : String) (infoRes : Option CompanyInfo)
        (sources : List SourceResult) (histRes : Option (List ℚ)),
      ∃ t, gather_company_context symbol name infoRes sources histRes =
        ("Company: " ++ name ++ " (" ++ symbol ++ ")\n\n") ++ t) ∧
    (∀ (symbol name : String) (sources : List SourceResult)
        (histRes : Option (List ℚ)),
      gatherChunks symbol name none sources histRes =
        ("Company: " ++ name ++ " (" ++ symbol ++ ")\n\n") ::
          "## Financial Metrics\n" ::
          (newsChunks (get_company_news sources) ++ techChunks histRes)) ∧
    (∀ (symbol name : String) (infoRes : Option CompanyInfo)
        (sources : List SourceResult),
      gatherChunks symbol name infoRes sources none =
        gatherChunks symbol name infoRes sources (some [])) := by
  refine ⟨?_, ?_, ?_⟩
  · intro s n i src h
    cases i with
    | none =>
      exact ⟨strConcat ([] ++ finChunks none
        ++ newsChunks (get_company_news src) ++ techChunks h), rfl⟩
    | some info =>
      exact ⟨strConcat (basicInfoChunks info ++ finChunks (some info)
        ++ newsChunks (get_company_news src) ++ techChunks h), rfl⟩
  · intro s n src h; rfl
  · intro s n i src; rfl

/-- Counterexample to C4 as stated: with the basic-info lookup failing
and no news or history, both info sub-steps fail, yet the returned block
is not just the header — the financial-metrics section is *not* omitted:
its bare `## Financial Metrics` header survives (it was appended before
the `NameError` on the unbound `info`). -/
theorem C4_counterexample :
    gather_company_context "T" "N" none [] none ≠ "Company: N (T)\n\n" ∧
    gather_company_context "T" "N" none [] none =
      "Company: N (T)\n\n## Financial Metrics\n" := by
  decide

/-- C5: absent fields other than `marketCap` render as the literal
`N/A` (first two conjuncts), but the claim fails for an absent market
capitalization: `format('N/A', ',')` raises `ValueError`, so the Market
Cap line — and the Employees line after it — are dropped entirely
(third conjunct evaluates the block at `infoNoCap`). -/
theorem C5_na_default_and_marketcap_bug :
    basicInfoChunks infoOnlyCap =
      ["## Basic Information\n", "- Sector: N/A\n", "- Industry: N/A\n",
       "- Market Cap: $2,000,000,000\n", "- Employees: N/A\n\n"] ∧
    finChunks (some infoNoCap) =
      ["## Financial Metrics\n", "- P/E Ratio: 30.5\n",
       "- Profit Margin: 0.25\n", "- Revenue Growth: 0.08\n",
       "- Debt/Equity: 170.0\n\n"] ∧
    finChunks (some infoOnlyCap) =
      ["## Financial Metrics\n", "- P/E Ratio: N/A\n",
       "- Profit Margin: N/A\n", "- Revenue Growth: N/A\n",
       "- Debt/Equity: N/A\n\n"] ∧
    basicInfoChunks infoNoCap =
      ["## Basic Information\n", "- Sector: Technology\n",
       "- Industry: Consumer Electronics\n"] := by
  decide

/-- C6: whenever both moving averages are defined, the assembled context
ends its technicals section with the label `Bullish` exactly when the
50-period average strictly exceeds the 200-period one, and `Bearish`
otherwise (equality included). -/
theorem C6_trend_label :
    ∀ (symbol name : String) (infoRes : Option CompanyInfo)
      (sources : List SourceResult) (closes : List ℚ) (a b : ℚ),
      sma 50 closes = some a → sma 200 closes = some b →
      trendWord closes = (if b < a then "Bullish" else "Bearish") ∧
      ∃ pre, gatherChunks symbol name infoRes sources (some closes) =
        pre ++ ["## Technical Indicators\n",
          "- Current Price: $" ++ fmt2 (closes.getLast?.getD 0) ++ "\n",
          "- 50-day MA: $" ++ fmt2 a ++ "\n",
          "- 200-day MA: $" ++ fmt2 b ++ "\n",
          "- Trend: " ++ (if b < a then "Bullish" else "Bearish") ++ "\n\n"] := by
  intro s n i src closes a b h50 h200
  have hlen : 200 ≤ closes.length := by
    by_contra h
    rw [sma, if_neg h] at h200
    exact Option.noConfusion h200
  have hne : closes.isEmpty = false := by
    cases closes with
    | nil => simp at hlen
    | cons _ _ => rfl
  have htrend : trendWord closes = if b < a then "Bullish" else "Bearish" := by
    rw [trendWord, h50, h200]
  have htech : techChunks (some closes) =
      ["## Technical Indicators\n",
       "- Current Price: $" ++ fmt2 (closes.getLast?.getD 0) ++ "\n",
       "- 50-day MA: $" ++ fmt2 a ++ "\n",
       "- 200-day MA: $" ++ fmt2 b ++ "\n",
       "- Trend: " ++ (if b < a then "Bullish" else "Bearish") ++ "\n\n"] := by
    show (if closes.isEmpty then [] else _) = _
    rw [if_neg (by simp [hne]), h50, h200, htrend]
    rfl
  refine ⟨htrend, ⟨("Company: " ++ n ++ " (" ++ s ++ ")\n\n") ::
    ((match i with
      | none => []
      | some info => basicInfoChunks info)
      ++ finChunks i ++ newsChunks (get_company_news src)), ?_⟩⟩
  unfold gatherChunks
  rw [htech]
  simp [List.append_assoc]

/-- Witness for C6 at a constant synthetic series: 200 closes all equal
to 1, so both averages equal 1, they tie, and the label is `Bearish`. -/
theorem C6_witness :
    trendWord (List.replicate 200 (1 : ℚ)) =
      (if (1 : ℚ) < 1 then "Bullish" else "Bearish") ∧
    ∃ pre, gatherChunks "T" "N" none [] (some (List.replicate 200 (1 : ℚ))) =
      pre ++ ["## Technical Indicators\n",
        "- Current Price: $" ++
          fmt2 ((List.replicate 200 (1 : ℚ)).getLast?.getD 0) ++ "\n",
        "- 50-day MA: $" ++ fmt2 1 ++ "\n",
        "- 200-day MA: $" ++ fmt2 1 ++ "\n",
        "- Trend: " ++ (if (1 : ℚ) < 1 then "Bullish" else "Bearish") ++ "\n\n"] :=
  C6_trend_label "T" "N" none [] (List.replicate 200 (1 : ℚ)) 1 1
    (by rw [sma, if_pos (by rw [List.length_replicate]; omega)]
        rw [List.reverse_replicate, List.take_replicate]
        norm_num [List.sum_replicate])
    (by rw [sma, if_pos (by rw [List.length_replicate])]
        rw [List.reverse_replicate, List.take_replicate]
        norm_num [List.sum_replicate])

/-- C8: the financial-metrics block reads the `info` value bound by the
basic-information block (no second lookup): with the lookup failed
(`none`) the section is the bare header — every metric value line is
absent; with the lookup bound to `i`, the four metric lines render from
that same `i`. -/
theorem C8_metrics_share_info_binding :
    ∀ (symbol name : String) (sources : List SourceResult)
      (histRes : Option (List ℚ)),
      (gatherChunks symbol name none sources histRes =
        ("Company: " ++ name ++ " (" ++ symbol ++ ")\n\n") ::
          "## Financial Metrics\n" ::
          (newsChunks (get_company_news sources) ++ techChunks histRes)) ∧
      (∀ i : CompanyInfo,
        gatherChunks symbol name (some i) sources histRes =
          ("Company: " ++ name ++ " (" ++ symbol ++ ")\n\n") ::
            (basicInfoChunks i ++
              ("## Financial Metrics\n" ::
               ["- P/E Ratio: " ++ orNA i.trailingPE ++ "\n",
                "- Profit Margin: " ++ orNA i.profitMargins ++ "\n",
                "- Revenue Growth: " ++ orNA i.revenueGrowth ++ "\n",
                "- Debt/Equity: " ++ orNA i.debtToEquity ++ "\n\n"]) ++
              newsChunks (get_company_news sources) ++ techChunks histRes)) := by
  intro s n src h
  refine ⟨rfl, ?_⟩
  intro i
  obtain ⟨sec, ind, mc, emp, pe, pm, rg, de⟩ := i
  cases mc <;> rfl

/-- Counterexample to C7 as stated: the numeric timestamp `0` is not
converted to its date string `1970-01-01 00:00` — it is falsy in
Python, so `_format_timestamp` returns `''`. -/
theorem C7_counterexample :
    epochFmt 0 = some "1970-01-01 00:00" ∧
    format_timestamp (.num 0) = "" ∧
    format_timestamp (.num 0) ≠ "1970-01-01 00:00" := by
  decide

/-- C7 (amended): any *nonzero* numeric timestamp within the
representable `datetime` range is converted to its `'%Y-%m-%d %H:%M'`
rendering; non-numeric values are passed through `str`, which leaves
every string unmodified; a missing (`None`) timestamp yields the empty
placeholder, as do numeric `0` and out-of-range numbers. -/
theorem C7_format_timestamp :
    (∀ n : Int, n ≠ 0 → tsMin ≤ n → n ≤ tsMax →
      ∃ s, epochFmt n = some s ∧ format_timestamp (.num n) = s) ∧
    (∀ s : String, format_timestamp (.str s) = s) ∧
    format_timestamp .noneV = "" ∧
    (∀ n : Int, ¬ (tsMin ≤ n ∧ n ≤ tsMax) → format_timestamp (.num n) = "") := by
  refine ⟨?_, ?_, rfl, ?_⟩
  · intro n hn hmin hmax
    have hsome : ∃ s, epochFmt n = some s := by
      rw [epochFmt, if_pos ⟨hmin, hmax⟩]
      exact ⟨_, rfl⟩
    obtain ⟨s, hs⟩ := hsome
    refine ⟨s, hs, ?_⟩
    have hfalsy : tsFalsy (.num n) = false := by
      simp [tsFalsy, hn]
    rw [format_timestamp, hfalsy]
    simp [hs]
  · intro s
    by_cases h : s = ""
    · subst h; rfl
    · have hfalsy : tsFalsy (.str s) = false := by
        simp [tsFalsy, h]
      rw [format_timestamp, hfalsy]
      rfl
  · intro n hout
    by_cases hz : n = 0
    · subst hz; rfl
    · have hfalsy : tsFalsy (.num n) = false := by
        simp [tsFalsy, hz]
      have hnone : epochFmt n = none := by
        rw [epochFmt, if_neg hout]
      rw [format_timestamp, hfalsy]
      simp [hnone]

/-- Witness for C7 at concrete values: one day after the epoch, a date
string is produced; non-numeric strings pass through unchanged. -/
theorem C7_witness :
    (∃ s, epochFmt 86400 = some s ∧ format_timestamp (.num 86400) = s) ∧
    format_timestamp (.str "2024-05-01") = "2024-05-01" :=
  ⟨C7_format_timestamp.1 86400 (by decide) (by decide) (by decide),
   C7_format_timestamp.2.1 "2024-05-01"⟩

/-- C9: a missing or malformed `us_stocks.json` is fatal for the
session: `load_stock_data` returns no data after reporting the matching
error; `main` reports the failure and returns before any sector
selection (no fallback) — while well-formed non-empty data does reach
sector selection. -/
theorem C9_config_failure_fatal :
    load_stock_data .missing =
      (none, ["Error: us_stocks.json file not found"]) ∧
    load_stock_data .malformed =
      (none, ["Error: Invalid JSON format in us_stocks.json"]) ∧
    mainStartup .missing =
      (false, ["Error: us_stocks.json file not found",
        "Failed to load stock data. Please check us_stocks.json file."]) ∧
    mainStartup .malformed =
      (false, ["Error: Invalid JSON format in us_stocks.json",
        "Failed to load stock data. Please check us_stocks.json file."]) ∧
    mainStartup (.ok [("Technology", [("Apple Inc", "AAPL")])]) =
      (true, []) :=
  ⟨rfl, rfl, rfl, rfl, rfl⟩
